import Mathlib

/-!
Verification of the nmq core: the RFC6455-like binary frame codec
(`nmq_message.go`, and its textually identical twin `ParseNmqFrame`), the
snowflake identifier generator (`utils` package), and the connection
server's accept / read loops (`nmq_message_server.go` and the
`MessageServer` variant).

Modelling conventions:
* Go `[]byte` buffers and Go strings are `List Nat`, one `Nat` per byte.
* Go `int64` values are `Int` with explicit two's-complement wrapping
  (`wrap64`); `int` is 64-bit, so it wraps the same way.
* `ParseWebSocketFrame` mutates the caller's buffer (the mask is removed
  in place, and the returned `Data` is a sub-slice of that buffer), so the
  embedding returns the final buffer next to the parse result.  A Go
  runtime panic (slice bounds out of range) is the explicit outcome
  `FrameRes.panic`.  The capacity of the input slice is taken to be its
  length.
-/

/-! ## Byte-order helpers (`encoding/binary`, big endian) -/

/-- Models `binary.BigEndian.PutUint16`: the two bytes of `v`, most significant
first (`byte(v >> 8)`, `byte(v)`). -/
def putUint16BE (v : Nat) : List Nat :=
  [v / 2 ^ 8 % 256, v % 256]

/-- Models `binary.BigEndian.PutUint64`: the eight bytes of `v`, most significant
first. -/
def putUint64BE (v : Nat) : List Nat :=
  [v / 2 ^ 56 % 256, v / 2 ^ 48 % 256, v / 2 ^ 40 % 256, v / 2 ^ 32 % 256,
   v / 2 ^ 24 % 256, v / 2 ^ 16 % 256, v / 2 ^ 8 % 256, v % 256]

/-- Models `binary.BigEndian.Uint16` on two bytes. -/
def beUint16 (b0 b1 : Nat) : Nat :=
  b0 * 2 ^ 8 + b1

/-- Models `binary.BigEndian.Uint64` on eight bytes. -/
def beUint64 (b0 b1 b2 b3 b4 b5 b6 b7 : Nat) : Nat :=
  b0 * 2 ^ 56 + b1 * 2 ^ 48 + b2 * 2 ^ 40 + b3 * 2 ^ 32 +
  b4 * 2 ^ 24 + b5 * 2 ^ 16 + b6 * 2 ^ 8 + b7

/-- Two's-complement wrap of an integer into the `int64` range
`[-2^63, 2^63)`; Go's signed arithmetic overflows by wrapping. -/
def wrap64 (x : Int) : Int :=
  (x + 2 ^ 63) % 2 ^ 64 - 2 ^ 63

/-- Go's `int64(u)` conversion of a `uint64` value `u < 2^64`. -/
def toInt64 (u : Nat) : Int :=
  wrap64 u

/-! ## The frame codec (`pkg/network/nmqmessage/nmq_message.go`) -/

/-- WebSocket opcodes, as in the source constant block. -/
def OpContinuation : Nat := 0x0

def OpText : Nat := 0x1

def OpBinary : Nat := 0x2

def OpClose : Nat := 0x8

def OpPing : Nat := 0x9

def OpPong : Nat := 0xA

/-- Models `NmqMessage`: the application envelope.  `Id` is never produced by the
codec (always `""`). -/
structure NmqMessage where
  Id : String
  Data : List Nat
deriving DecidableEq, Repr

/-- Outcome of `ParseWebSocketFrame`: a message, a Go error value, or a
runtime panic (slice bounds out of range). -/
inductive FrameRes where
  | ok (m : NmqMessage)
  | error (e : String)
  | panic
deriving DecidableEq, Repr

/-- Parse result paired with the final contents of the caller's buffer
(the parser unmasks in place). -/
structure ParseOut where
  res : FrameRes
  buf : List Nat
deriving DecidableEq, Repr

/-- Models `NmqMessage.ToWebSocketBinaryFrame` (identical to `ToNmqBinaryFrame`):
header byte `0x80 ||| OpBinary`, no mask, then the 7-bit / 16-bit / 64-bit
length encoding, then the payload. -/
def ToWebSocketBinaryFrame (data : List Nat) : List Nat :=
  if data.length < 126 then
    [0x80 ||| OpBinary, 0x00 ||| data.length] ++ data
  else if data.length ≤ 65535 then
    [0x80 ||| OpBinary, 0x00 ||| 126] ++ putUint16BE data.length ++ data
  else
    [0x80 ||| OpBinary, 0x00 ||| 127] ++ putUint64BE data.length ++ data

/-- The in-place unmasking loop `payload[i] ^= maskKey[i%4]`, carrying the
running index `i`. -/
def unmaskFrom (key : List Nat) (i : Nat) : List Nat → List Nat
  | [] => []
  | b :: rest => (b ^^^ key.getD (i % 4) 0) :: unmaskFrom key (i + 1) rest

/-- Unmask a payload with a 4-byte key (index starts at 0). -/
def unmaskBytes (key p : List Nat) : List Nat :=
  unmaskFrom key 0 p

/-- Tail of `ParseWebSocketFrame` after the extended-length field: mask
key, the `int64` length check (which wraps on overflow, exactly as Go's
`int64(payloadStart)+payloadLength` does), the payload slice
`frame[payloadStart : payloadStart+int(payloadLength)]` (a Go panic when
the upper bound is below the lower one), and in-place unmasking.  `ps0` is
`payloadStart` before the mask key. -/
def parsePayload (frame : List Nat) (mask : Bool) (payloadLength : Int)
    (ps0 : Nat) : ParseOut :=
  if mask ∧ frame.length < ps0 + 4 then
    ⟨.error "frame too short for mask key", frame⟩
  else
    let maskKey := (frame.drop ps0).take 4
    let payloadStart := if mask then ps0 + 4 else ps0
    if (frame.length : Int) < wrap64 (payloadStart + payloadLength) then
      ⟨.error "frame too short for payload", frame⟩
    else
      let hi : Int := wrap64 (payloadStart + payloadLength)
      if hi < (payloadStart : Int) then
        ⟨.panic, frame⟩
      else
        let plen := (hi - payloadStart).toNat
        let payload := (frame.drop payloadStart).take plen
        if mask then
          let unmasked := unmaskBytes maskKey payload
          ⟨.ok ⟨"", unmasked⟩,
           frame.take payloadStart ++ unmasked ++ frame.drop (payloadStart + plen)⟩
        else
          ⟨.ok ⟨"", payload⟩, frame⟩

/-- Models `ParseWebSocketFrame`: reject short frames and non-Text/Binary
opcodes, then read the 7-bit length with its `126`/`127` escapes and hand
off to `parsePayload`. -/
def ParseWebSocketFrame (frame : List Nat) : ParseOut :=
  if frame.length < 2 then
    ⟨.error "frame too short", frame⟩
  else
    let header := frame.getD 0 0
    let maskAndLength := frame.getD 1 0
    let opcode := header &&& 0x0F
    if opcode ≠ OpText ∧ opcode ≠ OpBinary then
      ⟨.error "unsupported opcode", frame⟩
    else
      let mask := maskAndLength &&& 0x80 != 0
      let payloadLength : Int := (maskAndLength &&& 0x7F : Nat)
      if payloadLength = 126 then
        if frame.length < 4 then
          ⟨.error "frame too short for extended payload length", frame⟩
        else
          parsePayload frame mask
            (beUint16 (frame.getD 2 0) (frame.getD 3 0) : Nat) 4
      else if payloadLength = 127 then
        if frame.length < 10 then
          ⟨.error "frame too short for extended payload length", frame⟩
        else
          parsePayload frame mask
            (toInt64 (beUint64 (frame.getD 2 0) (frame.getD 3 0)
              (frame.getD 4 0) (frame.getD 5 0) (frame.getD 6 0)
              (frame.getD 7 0) (frame.getD 8 0) (frame.getD 9 0))) 10
      else
        parsePayload frame mask payloadLength 2

/-- Models `ParseNmqFrame` (`part_010`): its body is textually identical to
`ParseWebSocketFrame` (the only difference is that the unused `fin`
binding is commented out). -/
def ParseNmqFrame (frame : List Nat) : ParseOut :=
  ParseWebSocketFrame frame

/-! ## Snowflake identifier generator (`utils` package, part_015) -/

/-- Package global `NodeBits` (never reassigned anywhere in the repo). -/
def NodeBits : Nat := 10

/-- Package global `StepBits` (never reassigned anywhere in the repo). -/
def StepBits : Nat := 12

/-- Models `n.nodeMax = -1 ^ (-1 << NodeBits)`: the low `NodeBits` bits all set,
i.e. `2^NodeBits - 1`. -/
def snowNodeMax : Nat := 2 ^ NodeBits - 1

/-- Models `n.stepMask = -1 ^ (-1 << StepBits) = 2^StepBits - 1`. -/
def snowStepMask : Nat := 2 ^ StepBits - 1

/-- Models `n.timeShift = NodeBits + StepBits`. -/
def snowTimeShift : Nat := NodeBits + StepBits

/-- Models `n.nodeShift = StepBits`. -/
def snowNodeShift : Nat := StepBits

/-- The mutable state of a `SnowNode` (epoch and the derived constants are
fixed; times are milliseconds since the epoch). -/
structure SnowNode where
  time : Nat
  node : Nat
  step : Nat
deriving DecidableEq, Repr

/-- Models `NewSnowNode(node)`: fails iff `node < 0 || node > nodeMax`; otherwise
the zero-initialized generator state (`time = 0`, `step = 0`). -/
def NewSnowNode (node : Int) : Option SnowNode :=
  if node < 0 ∨ node > (snowNodeMax : Int) then none
  else some { time := 0, node := node.toNat, step := 0 }

/-- Identifier composition
`SnowID(now<<timeShift | node<<nodeShift | step)`.  Within the spec's
regime (`now < 2^41`) the `int64` result does not overflow, so `Nat`
models it exactly. -/
def mkSnowId (now node step : Nat) : Nat :=
  now <<< snowTimeShift ||| node <<< snowNodeShift ||| step

/-- One `Generate()` call.  `now` is the initial clock reading
`time.Since(n.epoch).Milliseconds()`; `nowExit` is the reading with which
the busy-wait `for now <= n.time { now = ... }` exits when the sequence
wraps to 0 (the loop exit condition forces `nowExit > n.time`, which is a
hypothesis of the theorems, not of the definition). -/
def snowGenerate (st : SnowNode) (now nowExit : Nat) : SnowNode × Nat :=
  if now = st.time then
    let step := (st.step + 1) &&& snowStepMask
    if step = 0 then
      ⟨{ st with time := nowExit, step := step }, mkSnowId nowExit st.node step⟩
    else
      ⟨{ st with time := now, step := step }, mkSnowId now st.node step⟩
  else
    ⟨{ st with time := now, step := 0 }, mkSnowId now st.node 0⟩

/-- A sequence of `Generate()` calls; each entry carries one call's pair
of clock readings.  Returns the generated identifiers in order. -/
def snowRun (st : SnowNode) : List (Nat × Nat) → List Nat
  | [] => []
  | (now, ex) :: rest =>
    (snowGenerate st now ex).2 :: snowRun (snowGenerate st now ex).1 rest

/-- A well-behaved clock for a run: each call's first reading is at least
the stored last timestamp (non-decreasing clock), the busy-wait exit
reading is strictly later, and readings stay below `2^41` (41 timestamp
bits, the spec's regime, so the 63-bit composition cannot overflow). -/
def snowValidClock (st : SnowNode) : List (Nat × Nat) → Bool
  | [] => true
  | (now, ex) :: rest =>
    st.time ≤ now && now < ex && ex < 2 ^ 41 &&
      snowValidClock (snowGenerate st now ex).1 rest

/-- Generator-state well-formedness: field bounds that `NewSnowNode`
establishes and `Generate` preserves. -/
def snowValidState (st : SnowNode) : Bool :=
  st.node ≤ snowNodeMax && st.step ≤ snowStepMask && st.time < 2 ^ 41

/-! ## Connection server loops -/

/-- One `listener.Accept()` outcome. -/
inductive AcceptEvent where
  | conn (c : Nat)
  | timeoutErr
  | otherErr
deriving DecidableEq, Repr

/-- The accept goroutine of `MessageServer.Start` (part_010): on a timeout
error (`opErr.Timeout()`) it logs and `continue`s; on any other accept
error it logs and `return`s; an accepted connection is minted a snowflake
id, stored in `ms.connections`, and handed to `handleConnection`.  The
result lists the connections that get registered, in order. -/
def acceptLoop : List AcceptEvent → List Nat
  | [] => []
  | .conn c :: rest => c :: acceptLoop rest
  | .timeoutErr :: rest => acceptLoop rest
  | .otherErr :: _ => []

/-- The accept loop of `MessageServer.NmqMessageServer`
(nmq_message_server.go): every accept error is logged and the loop
`continue`s — it never exits on an error; accepted connections are handed
to an empty goroutine (and never registered anywhere).  The result lists
the connections the loop accepts and hands off, in order. -/
def nmqMessageServerLoop : List AcceptEvent → List Nat
  | [] => []
  | .conn c :: rest => c :: nmqMessageServerLoop rest
  | .timeoutErr :: rest => nmqMessageServerLoop rest
  | .otherErr :: rest => nmqMessageServerLoop rest

/-- One iteration outcome of the per-connection read loop. -/
inductive ReadEvent where
  | timeout
  | eof
  | readErr
  | data (n : Nat)
deriving DecidableEq, Repr

/-- Observable result of `handleConnection`: the final contents of the
`ms.connections` registry (its key set) and how many times the socket was
closed. -/
structure ConnExit where
  connections : List Nat
  closes : Nat
deriving DecidableEq, Repr

/-- The read loop of `MessageServer.handleConnection` (part_010): a read
timeout `continue`s; `io.EOF` and any other read error `break`; received
data only updates the byte counter.  No branch touches `ms.connections`,
so the registry passes through unchanged. -/
def readLoop (connections : List Nat) : List ReadEvent → List Nat
  | [] => connections
  | .timeout :: rest => readLoop connections rest
  | .data _ :: rest => readLoop connections rest
  | .eof :: _ => connections
  | .readErr :: _ => connections

/-- Models `MessageServer.handleConnection(snowId, conn)`: runs the read loop;
`defer conn.Close()` closes the socket exactly once on exit.  No exit path
deletes `snowId` from the registry (there is no `delete(ms.connections, …)`
anywhere in the file). -/
def handleConnection (connections : List Nat) (_snowId : Nat)
    (events : List ReadEvent) : ConnExit :=
  { connections := readLoop connections events, closes := 1 }

/-! ## SnowID text encodings (part_015) -/

/-- The digit-emission loop shared by `strconv.FormatInt` and the custom
base32/base58 encoders: emit `f % base` and divide while `f >= base`, then
emit the final digit — least significant first.  `fuel` makes the
recursion structural; `digitsLSB` supplies `n` itself, which is always
enough fuel. -/
def digitsGo (base : Nat) : Nat → Nat → List Nat
  | 0, n => [n]
  | fuel + 1, n => if n < base then [n] else n % base :: digitsGo base fuel (n / base)

/-- Digits of `n` in `base`, least significant first, never empty. -/
def digitsLSB (base n : Nat) : List Nat :=
  digitsGo base n n

/-- Models `strconv`'s digit alphabet `"0123456789abcdefghijklmnopqrstuvwxyz"`. -/
def goDigitChars : List Nat := "0123456789abcdefghijklmnopqrstuvwxyz".toList.map Char.toNat

/-- Go `strconv.FormatInt(i, base)` for non-negative `i` (every identifier
in the claims is a non-negative 63-bit value, so the sign branch is dead):
digits most significant first, lowercase. -/
def formatNat (base n : Nat) : List Nat :=
  ((digitsLSB base n).map (fun d => goDigitChars.getD d 0)).reverse

/-- Models `SnowID.String()`: `strconv.FormatInt(int64(f), 10)`. -/
def SnowString (f : Nat) : List Nat := formatNat 10 f

/-- Models `SnowID.Base36()`: `strconv.FormatInt(int64(f), 36)`. -/
def SnowBase36 (f : Nat) : List Nat := formatNat 36 f

/-- The z-base-32 alphabet `encodeBase32Map`. -/
def encodeBase32Map : List Nat := "ybndrfg8ejkmcpqxot1uwisza345h769".toList.map Char.toNat

/-- The base58 alphabet `encodeBase58Map`. -/
def encodeBase58Map : List Nat :=
  "123456789abcdefghijkmnopqrstuvwxyzABCDEFGHJKLMNPQRSTUVWXYZ".toList.map Char.toNat

/-- Models `SnowID.Base32()`: digit loop (single char when `f < 32`), building
least-significant first and reversing, through `encodeBase32Map`. -/
def SnowBase32 (f : Nat) : List Nat :=
  ((digitsLSB 32 f).map (fun d => encodeBase32Map.getD d 0)).reverse

/-- Models `SnowID.Base58()`: same shape over `encodeBase58Map`. -/
def SnowBase58 (f : Nat) : List Nat :=
  ((digitsLSB 58 f).map (fun d => encodeBase58Map.getD d 0)).reverse

/-- The `init()`-built base32 decode table: all `0xFF`, then
`decodeBase32Map[encodeBase32Map[i]] = i` for `i` in increasing order. -/
def decodeBase32Map (c : Nat) : Nat :=
  (List.range 32).foldl (fun acc i => if encodeBase32Map.getD i 0 = c then i else acc) 0xFF

/-- The `init()`-built base58 decode table. -/
def decodeBase58Map (c : Nat) : Nat :=
  (List.range 58).foldl (fun acc i => if encodeBase58Map.getD i 0 = c then i else acc) 0xFF

/-- The accumulation loop of `ParseBase32`: `id = id*32 + v` on `int64`
(silently wrapping), rejecting bytes not in the table. -/
def parseBase32Loop (id : Int) : List Nat → Option Int
  | [] => some id
  | c :: cs =>
    if decodeBase32Map c = 0xFF then none
    else parseBase32Loop (wrap64 (id * 32 + decodeBase32Map c)) cs

/-- Models `ParseBase32`. -/
def ParseBase32 (b : List Nat) : Option Int := parseBase32Loop 0 b

/-- The accumulation loop of `ParseBase58`. -/
def parseBase58Loop (id : Int) : List Nat → Option Int
  | [] => some id
  | c :: cs =>
    if decodeBase58Map c = 0xFF then none
    else parseBase58Loop (wrap64 (id * 58 + decodeBase58Map c)) cs

/-- Models `ParseBase58`. -/
def ParseBase58 (b : List Nat) : Option Int := parseBase58Loop 0 b

/-- One digit byte as `strconv.ParseUint` reads it: `'0'-'9'`,
`'a'-'z'`, `'A'-'Z'`; anything else is a syntax error. -/
def goDigitVal (c : Nat) : Option Nat :=
  if 48 ≤ c ∧ c ≤ 57 then some (c - 48)
  else if 97 ≤ c ∧ c ≤ 122 then some (c - 97 + 10)
  else if 65 ≤ c ∧ c ≤ 90 then some (c - 65 + 10)
  else none

/-- The digit loop of `strconv.ParseUint(s, base, 64)`: reject digits `≥
base`, the `un >= cutoff` range check with `cutoff = maxUint64/base + 1`,
and the overflow check on `un*base + d` (Go detects the wrap via
`n < n1`; over `Nat` that is exactly `un*base + d > maxUint64`). -/
def parseUintLoop (base un : Nat) : List Nat → Option Nat
  | [] => some un
  | c :: cs =>
    match goDigitVal c with
    | none => none
    | some d =>
      if d ≥ base then none
      else if un ≥ (2 ^ 64 - 1) / base + 1 then none
      else if un * base + d > 2 ^ 64 - 1 then none
      else parseUintLoop base (un * base + d) cs

/-- Models `strconv.ParseUint(s, base, 64)`: empty input is a syntax error. -/
def goParseUint (base : Nat) (s : List Nat) : Option Nat :=
  if s = [] then none else parseUintLoop base 0 s

/-- Models `strconv.ParseInt(s, base, 64)`: optional leading `+`/`-`, then
`ParseUint`, then the signed 64-bit range checks
(`un >= 1<<63` positive, `un > 1<<63` negative). -/
def goParseInt (base : Nat) (s : List Nat) : Option Int :=
  match s with
  | [] => none
  | c :: rest =>
    let digits := if c = 43 ∨ c = 45 then rest else s
    match goParseUint base digits with
    | none => none
    | some un =>
      if c ≠ 45 ∧ un ≥ 2 ^ 63 then none
      else if c = 45 ∧ un > 2 ^ 63 then none
      else some (if c = 45 then -(un : Int) else (un : Int))

/-- Models `ParseString`: `strconv.ParseInt(id, 10, 64)`. -/
def ParseString (s : List Nat) : Option Int := goParseInt 10 s

/-- Models `ParseBase36`: `strconv.ParseInt(id, 36, 64)`. -/
def ParseBase36 (s : List Nat) : Option Int := goParseInt 36 s

/-- The standard base64 alphabet of `base64.StdEncoding`. -/
def b64EncodeMap : List Nat :=
  "ABCDEFGHIJKLMNOPQRSTUVWXYZabcdefghijklmnopqrstuvwxyz0123456789+/".toList.map Char.toNat

/-- The `'='` padding byte. -/
def b64Pad : Nat := 61

/-- Models `base64.StdEncoding.EncodeToString`: 3-byte groups into 4 alphabet
bytes; a 2-byte tail pads with one `=`, a 1-byte tail with two. -/
def b64Encode : List Nat → List Nat
  | b0 :: b1 :: b2 :: rest =>
    b64EncodeMap.getD (b0 / 4) 0 ::
    b64EncodeMap.getD (b0 % 4 * 16 + b1 / 16) 0 ::
    b64EncodeMap.getD (b1 % 16 * 4 + b2 / 64) 0 ::
    b64EncodeMap.getD (b2 % 64) 0 :: b64Encode rest
  | [b0, b1] =>
    [b64EncodeMap.getD (b0 / 4) 0, b64EncodeMap.getD (b0 % 4 * 16 + b1 / 16) 0,
     b64EncodeMap.getD (b1 % 16 * 4) 0, b64Pad]
  | [b0] =>
    [b64EncodeMap.getD (b0 / 4) 0, b64EncodeMap.getD (b0 % 4 * 16) 0, b64Pad, b64Pad]
  | [] => []

/-- Alphabet lookup used by the decoder (`decodeMap`). -/
def b64DigitVal (c : Nat) : Option Nat :=
  (List.range 64).foldl (fun acc j => if b64EncodeMap.getD j 0 = c then some j else acc) none

/-- Models `base64.StdEncoding.DecodeString`: strict 4-byte quanta, `=` padding
only closing the final quantum (the default decoder accepts non-zero spare
padding bits, unlike `Strict()`); anything else is `CorruptInputError`. -/
def b64Decode : List Nat → Option (List Nat)
  | [] => some []
  | c0 :: c1 :: c2 :: c3 :: rest =>
    match b64DigitVal c0, b64DigitVal c1 with
    | some v0, some v1 =>
      if c2 = b64Pad then
        if c3 = b64Pad ∧ rest = [] then some [v0 * 4 + v1 / 16] else none
      else
        match b64DigitVal c2 with
        | some v2 =>
          if c3 = b64Pad then
            if rest = [] then some [v0 * 4 + v1 / 16, v1 % 16 * 16 + v2 / 4]
            else none
          else
            match b64DigitVal c3, b64Decode rest with
            | some v3, some bs =>
              some ((v0 * 4 + v1 / 16) :: (v1 % 16 * 16 + v2 / 4) ::
                (v2 % 4 * 64 + v3) :: bs)
            | _, _ => none
        | none => none
    | _, _ => none
  | _ => none

/-- Models `SnowID.Bytes()`: `[]byte(f.String())`. -/
def SnowBytes (f : Nat) : List Nat := SnowString f

/-- Models `SnowID.Base64()`: `base64.StdEncoding.EncodeToString(f.Bytes())`. -/
def SnowBase64 (f : Nat) : List Nat := b64Encode (SnowBytes f)

/-- Models `ParseBytes`: `strconv.ParseInt(string(id), 10, 64)`. -/
def ParseBytes (b : List Nat) : Option Int := goParseInt 10 b

/-- Models `ParseBase64`: decode, then `ParseBytes`. -/
def ParseBase64 (s : List Nat) : Option Int :=
  match b64Decode s with
  | none => none
  | some b => ParseBytes b

/-- Models `SnowID.IntBytes()`: 8-byte big-endian of `uint64(f)` (identity on the
non-negative ids of the claims). -/
def SnowIntBytes (f : Nat) : List Nat := putUint64BE f

/-- Models `ParseIntBytes`: `SnowID(int64(binary.BigEndian.Uint64(id)))`. -/
def ParseIntBytes (b : List Nat) : Int :=
  toInt64 (beUint64 (b.getD 0 0) (b.getD 1 0) (b.getD 2 0) (b.getD 3 0)
    (b.getD 4 0) (b.getD 5 0) (b.getD 6 0) (b.getD 7 0))

/-- Value of a most-significant-first digit list (specification-side
companion of the digit loops, used to state their correctness). -/
def natOfDigits (base : Nat) : List Nat → Nat
  | [] => 0
  | d :: ds => d * base ^ ds.length + natOfDigits base ds

/-! ## Arithmetic and list helper lemmas -/

theorem wrap64_eq_self {x : Int} (h1 : -2 ^ 63 ≤ x) (h2 : x < 2 ^ 63) :
    wrap64 x = x := by
  unfold wrap64
  rw [Int.emod_eq_of_lt (by omega) (by omega)]
  omega

theorem and_x80_eq_zero {x : Nat} (h : x < 128) : x &&& 0x80 = 0 := by
  have h7 : (0x80 : Nat) = 2 ^ 7 := by norm_num
  rw [h7, Nat.and_two_pow, Nat.testBit_lt_two_pow (by omega : x < 2 ^ 7)]
  simp

theorem and_x7F_eq_mod (x : Nat) : x &&& 0x7F = x % 128 := by
  have h7 : (0x7F : Nat) = 2 ^ 7 - 1 := by norm_num
  rw [h7, Nat.and_pow_two_sub_one_eq_mod]

theorem unmaskFrom_length (key : List Nat) (i : Nat) (p : List Nat) :
    (unmaskFrom key i p).length = p.length := by
  induction p generalizing i with
  | nil => rfl
  | cons b rest ih => simp [unmaskFrom, ih]

theorem unmaskBytes_length (key p : List Nat) :
    (unmaskBytes key p).length = p.length :=
  unmaskFrom_length key 0 p

/-! ## Round-trip lemmas for the codec -/

/-- Running `parsePayload` on an unmasked frame whose buffer ends exactly at
the declared payload: success, no mutation. -/
theorem parsePayload_unmasked (frame : List Nat) (len ps0 : Nat)
    (hlen : frame.length = ps0 + len) (hbound : ps0 + len < 2 ^ 63) :
    parsePayload frame false (len : Int) ps0 =
      ⟨.ok ⟨"", frame.drop ps0⟩, frame⟩ := by
  have hw : wrap64 ((ps0 : Int) + (len : Int)) = (ps0 : Int) + (len : Int) :=
    wrap64_eq_self (by omega) (by exact_mod_cast hbound)
  simp only [parsePayload, Bool.false_eq_true, false_and, if_false, hw]
  rw [if_neg (by push_cast [hlen]; omega)]
  rw [if_neg (by omega)]
  have hplen : (((ps0 : Int) + (len : Int)) - (ps0 : Int)).toNat = len := by
    omega
  rw [hplen]
  have hdrop : (frame.drop ps0).take len = frame.drop ps0 := by
    apply List.take_of_length_le
    simp [List.length_drop, hlen]
  rw [hdrop]

theorem parse_encode_short (p : List Nat) (h : p.length < 126) :
    ParseWebSocketFrame (ToWebSocketBinaryFrame p) =
      ⟨.ok ⟨"", p⟩, ToWebSocketBinaryFrame p⟩ := by
  have henc : ToWebSocketBinaryFrame p = 0x82 :: p.length :: p := by
    simp [ToWebSocketBinaryFrame, if_pos h, OpBinary]
  rw [henc]
  have hmask : p.length &&& 0x80 = 0 := and_x80_eq_zero (by omega)
  have h7f : p.length &&& 0x7F = p.length := by
    rw [and_x7F_eq_mod]; omega
  simp only [ParseWebSocketFrame, List.length_cons, List.getD_cons_zero,
    List.getD_cons_succ, hmask, h7f]
  rw [if_neg (by omega)]
  rw [if_neg (by decide)]
  rw [if_neg (by exact_mod_cast (by omega : ¬ p.length = 126))]
  rw [if_neg (by exact_mod_cast (by omega : ¬ p.length = 127))]
  simp only [bne_self_eq_false]
  rw [parsePayload_unmasked (0x82 :: p.length :: p) p.length 2
    (by simp only [List.length_cons]; omega) (by omega)]
  simp

theorem parse_encode_mid (p : List Nat) (h1 : 126 ≤ p.length)
    (h2 : p.length ≤ 65535) :
    ParseWebSocketFrame (ToWebSocketBinaryFrame p) =
      ⟨.ok ⟨"", p⟩, ToWebSocketBinaryFrame p⟩ := by
  have henc : ToWebSocketBinaryFrame p =
      0x82 :: 126 :: (p.length / 2 ^ 8 % 256) :: (p.length % 256) :: p := by
    simp only [ToWebSocketBinaryFrame]
    rw [if_neg (by omega), if_pos h2]
    simp [putUint16BE, OpBinary]
  rw [henc]
  simp only [ParseWebSocketFrame, List.length_cons, List.getD_cons_zero,
    List.getD_cons_succ]
  rw [if_neg (by omega)]
  rw [if_neg (by decide)]
  rw [if_pos (by decide)]
  rw [if_neg (by omega)]
  have hbe : beUint16 (p.length / 2 ^ 8 % 256) (p.length % 256) = p.length := by
    unfold beUint16
    omega
  rw [hbe]
  have hm : (126 &&& 0x80 != 0) = false := by decide
  rw [hm]
  rw [parsePayload_unmasked _ p.length 4 (by simp only [List.length_cons]; omega)
    (by omega)]
  simp

theorem parse_encode_long (p : List Nat) (h1 : 65535 < p.length)
    (h2 : p.length < 2 ^ 63 - 10) :
    ParseWebSocketFrame (ToWebSocketBinaryFrame p) =
      ⟨.ok ⟨"", p⟩, ToWebSocketBinaryFrame p⟩ := by
  have henc : ToWebSocketBinaryFrame p =
      0x82 :: 127 :: (p.length / 2 ^ 56 % 256) :: (p.length / 2 ^ 48 % 256) ::
      (p.length / 2 ^ 40 % 256) :: (p.length / 2 ^ 32 % 256) ::
      (p.length / 2 ^ 24 % 256) :: (p.length / 2 ^ 16 % 256) ::
      (p.length / 2 ^ 8 % 256) :: (p.length % 256) :: p := by
    simp only [ToWebSocketBinaryFrame]
    rw [if_neg (by omega), if_neg (by omega)]
    simp [putUint64BE, OpBinary]
  rw [henc]
  simp only [ParseWebSocketFrame, List.length_cons, List.getD_cons_zero,
    List.getD_cons_succ]
  rw [if_neg (by omega)]
  rw [if_neg (by decide)]
  rw [if_neg (by decide)]
  rw [if_pos (by decide)]
  rw [if_neg (by omega)]
  have hbe : beUint64 (p.length / 2 ^ 56 % 256) (p.length / 2 ^ 48 % 256)
      (p.length / 2 ^ 40 % 256) (p.length / 2 ^ 32 % 256)
      (p.length / 2 ^ 24 % 256) (p.length / 2 ^ 16 % 256)
      (p.length / 2 ^ 8 % 256) (p.length % 256) = p.length := by
    unfold beUint64
    omega
  rw [hbe]
  have hto : toInt64 p.length = (p.length : Int) := by
    unfold toInt64
    exact wrap64_eq_self (by omega) (by push_cast; omega)
  rw [hto]
  have hm : (127 &&& 0x80 != 0) = false := by decide
  rw [hm]
  rw [parsePayload_unmasked _ p.length 10 (by simp only [List.length_cons]; omega)
    (by omega)]
  simp

/-! ## Claim theorems: frame codec -/

/-- C1: the claim that frame decode never panics and that any declared
payload length exceeding the remaining buffer is a decode error FAILS on
the code: a 10-byte frame declaring the 64-bit length `0xFFFFFFFFFFFFFFFF`
(which exceeds the 0 remaining bytes) passes the length check — Go's
`int64` cast makes the declared length `-1`, so
`int64(len(frame)) < int64(payloadStart)+payloadLength` is `10 < 9`,
false — and then `frame[10:9]` panics with a slice-bounds violation
instead of returning an error.  The same holds for the textually identical
`ParseNmqFrame`. -/
theorem c1_length_overflow_panics :
    (ParseWebSocketFrame
        [0x82, 0x7F, 0xFF, 0xFF, 0xFF, 0xFF, 0xFF, 0xFF, 0xFF, 0xFF]).res
      = .panic ∧
    (ParseNmqFrame
        [0x82, 0x7F, 0xFF, 0xFF, 0xFF, 0xFF, 0xFF, 0xFF, 0xFF, 0xFF]).res
      = .panic := by
  decide

/-- C2: for payloads of length 0, 1, 125, 126, 65535 and 65536, decoding
the binary frame produced by `ToWebSocketBinaryFrame` yields the original
payload as `Data` (and an empty `Id`). -/
theorem c2_decode_encode_roundtrip (p : List Nat)
    (h : p.length = 0 ∨ p.length = 1 ∨ p.length = 125 ∨ p.length = 126 ∨
      p.length = 65535 ∨ p.length = 65536) :
    (ParseWebSocketFrame (ToWebSocketBinaryFrame p)).res = .ok ⟨"", p⟩ := by
  rcases h with h | h | h | h | h | h
  · rw [parse_encode_short p (by omega)]
  · rw [parse_encode_short p (by omega)]
  · rw [parse_encode_short p (by omega)]
  · rw [parse_encode_mid p (by omega) (by omega)]
  · rw [parse_encode_mid p (by omega) (by omega)]
  · rw [parse_encode_long p (by omega) (by omega)]

/-- Witness for C2 at the concrete payload `[]` (length 0). -/
theorem c2_decode_encode_roundtrip_witness :
    ([] : List Nat).length = 0 ∧
      (ParseWebSocketFrame (ToWebSocketBinaryFrame [])).res = .ok ⟨"", []⟩ :=
  ⟨by decide, c2_decode_encode_roundtrip [] (Or.inl (by decide))⟩

/-- C5: encoding any 200000-byte payload produces exactly
`0x82, 0x7F`, the 8-byte big-endian length `0x0000000000030D40`, then the
payload; and decoding that exact byte sequence returns the payload. -/
theorem c5_encode_200000_exact (p : List Nat) (h : p.length = 200000) :
    ToWebSocketBinaryFrame p =
      0x82 :: 0x7F :: 0x00 :: 0x00 :: 0x00 :: 0x00 :: 0x00 :: 0x03 :: 0x0D ::
        0x40 :: p ∧
    (ParseWebSocketFrame
        (0x82 :: 0x7F :: 0x00 :: 0x00 :: 0x00 :: 0x00 :: 0x00 :: 0x03 :: 0x0D ::
          0x40 :: p)).res = .ok ⟨"", p⟩ := by
  have henc : ToWebSocketBinaryFrame p =
      0x82 :: 0x7F :: 0x00 :: 0x00 :: 0x00 :: 0x00 :: 0x00 :: 0x03 :: 0x0D ::
        0x40 :: p := by
    simp only [ToWebSocketBinaryFrame]
    rw [if_neg (by omega), if_neg (by omega)]
    simp [putUint64BE, OpBinary, h]
  refine ⟨henc, ?_⟩
  rw [← henc, parse_encode_long p (by omega) (by omega)]

/-- Witness for C5 at the concrete payload of 200000 zero bytes. -/
theorem c5_encode_200000_exact_witness :
    (List.replicate 200000 (0 : Nat)).length = 200000 ∧
      (ParseWebSocketFrame (ToWebSocketBinaryFrame (List.replicate 200000 0))).res
        = .ok ⟨"", List.replicate 200000 0⟩ := by
  refine ⟨by rw [List.length_replicate], ?_⟩
  have h := c5_encode_200000_exact (List.replicate 200000 0)
    (by rw [List.length_replicate])
  rw [h.1]
  exact h.2

/-! ## Claim theorems: connection server loops -/

theorem acceptLoop_timeout_skip (pre post : List AcceptEvent) :
    acceptLoop (pre ++ AcceptEvent.timeoutErr :: post) = acceptLoop (pre ++ post) := by
  induction pre with
  | nil => simp [acceptLoop]
  | cons e rest ih => cases e <;> simp [acceptLoop, ih]

theorem acceptLoop_other_terminal (pre post : List AcceptEvent) :
    acceptLoop (pre ++ AcceptEvent.otherErr :: post) =
      acceptLoop (pre ++ [AcceptEvent.otherErr]) := by
  induction pre with
  | nil => simp [acceptLoop]
  | cons e rest ih => cases e <;> simp [acceptLoop, ih]

theorem acceptLoop_other_stops (pre post : List AcceptEvent)
    (h : AcceptEvent.otherErr ∉ pre) :
    acceptLoop (pre ++ AcceptEvent.otherErr :: post) = acceptLoop pre := by
  induction pre with
  | nil => simp [acceptLoop]
  | cons e rest ih =>
    have hr : AcceptEvent.otherErr ∉ rest := fun hm => h (List.mem_cons_of_mem _ hm)
    have he : e ≠ AcceptEvent.otherErr := fun hh => h (hh ▸ List.mem_cons_self _ _)
    cases e with
    | conn c => simpa [acceptLoop, List.append_eq] using ih hr
    | timeoutErr => simpa [acceptLoop, List.append_eq] using ih hr
    | otherErr => exact absurd rfl he

/-- C7 (counterexample): the claim quotes the accept loop of
`MessageServer.NmqMessageServer` among its sources, but that loop retries
on EVERY accept error: after a non-timeout accept error it still accepts
and hands off the next connection, contradicting "the loop exits and stops
accepting new connections permanently". -/
theorem c7_nmqMessageServer_retries_after_error :
    nmqMessageServerLoop [AcceptEvent.otherErr, AcceptEvent.conn 5] = [5] := by
  decide

/-- C7 (amended to `MessageServer.Start`, part_010): in that accept loop a
timeout error is skipped and the loop retries, while a non-timeout accept
error is terminal — everything after it is discarded, and if no earlier
error occurred, exactly the connections accepted before it are ever
registered. -/
theorem c7_start_accept_loop_classifies_errors :
    (∀ pre post, acceptLoop (pre ++ AcceptEvent.timeoutErr :: post) =
      acceptLoop (pre ++ post)) ∧
    (∀ pre post, acceptLoop (pre ++ AcceptEvent.otherErr :: post) =
      acceptLoop (pre ++ [AcceptEvent.otherErr])) ∧
    (∀ pre post, AcceptEvent.otherErr ∉ pre →
      acceptLoop (pre ++ AcceptEvent.otherErr :: post) = acceptLoop pre) :=
  ⟨acceptLoop_timeout_skip, acceptLoop_other_terminal, acceptLoop_other_stops⟩

/-- Witness for C7 on a concrete event sequence: a timeout, one
connection, then a fatal accept error followed by two more would-be
connections that are never accepted. -/
theorem c7_start_accept_loop_witness :
    AcceptEvent.otherErr ∉ [AcceptEvent.timeoutErr, AcceptEvent.conn 1] ∧
      acceptLoop ([AcceptEvent.timeoutErr, AcceptEvent.conn 1] ++
        AcceptEvent.otherErr :: [AcceptEvent.conn 2, AcceptEvent.conn 3]) =
        acceptLoop [AcceptEvent.timeoutErr, AcceptEvent.conn 1] :=
  ⟨by decide,
   c7_start_accept_loop_classifies_errors.2.2
     [AcceptEvent.timeoutErr, AcceptEvent.conn 1]
     [AcceptEvent.conn 2, AcceptEvent.conn 3] (by decide)⟩

theorem readLoop_id (connections : List Nat) (events : List ReadEvent) :
    readLoop connections events = connections := by
  induction events with
  | nil => rfl
  | cons e rest ih => cases e <;> simp [readLoop, ih]

/-- C4: the claim that every exit path of the per-connection read loop
removes the connection from the registry FAILS on the code:
`handleConnection` closes the socket (once, via `defer`) but no branch
ever deletes `snowId` from `ms.connections` — the registry passes through
every exit path unchanged, shown here in general and at the concrete
failing input of a registered id 42 whose connection hits EOF. -/
theorem c4_registry_never_pruned :
    (∀ connections snowId events,
      (handleConnection connections snowId events).connections = connections ∧
      (handleConnection connections snowId events).closes = 1) ∧
    handleConnection [42] 42 [ReadEvent.eof] =
      { connections := [42], closes := 1 } :=
  ⟨fun connections snowId events =>
    ⟨readLoop_id connections events, rfl⟩, by decide⟩

/-! ## Claim theorems: identifier generator construction -/

/-- C8: `NewSnowNode` succeeds exactly on node values inside
`[0, 2^NodeBits - 1]`. -/
theorem c8_newSnowNode_ok_iff (node : Int) :
    (NewSnowNode node).isSome ↔ 0 ≤ node ∧ node ≤ 2 ^ NodeBits - 1 := by
  unfold NewSnowNode snowNodeMax NodeBits
  split_ifs with h
  · simp only [Option.isSome_none, Bool.false_eq_true, false_iff]
    push_cast at h
    omega
  · simp only [Option.isSome_some, true_iff]
    push_cast at h
    omega

/-! ## Claim theorems: masked decode mutates the buffer in place -/

theorem parsePayload_masked_ok (frame : List Nat) (pl : Int) (ps0 : Nat)
    (msg : NmqMessage) (buf : List Nat)
    (h : parsePayload frame true pl ps0 = ⟨.ok msg, buf⟩) :
    ∃ plen, msg.Data.length = plen ∧ ps0 + 4 + plen ≤ frame.length ∧
      msg.Data = unmaskBytes ((frame.drop ps0).take 4)
        ((frame.drop (ps0 + 4)).take plen) ∧
      buf = frame.take (ps0 + 4) ++ msg.Data ++ frame.drop (ps0 + 4 + plen) := by
  simp only [parsePayload, if_pos rfl, true_and] at h
  split_ifs at h with h1 h2 h3
  · simp at h
  · simp at h
  · simp at h
  · push_cast at h2 h3
    simp only [ParseOut.mk.injEq, FrameRes.ok.injEq] at h
    obtain ⟨hmsg, hbuf⟩ := h
    push_cast at hmsg hbuf
    have hData : msg.Data = unmaskBytes ((frame.drop ps0).take 4)
        ((frame.drop (ps0 + 4)).take
          ((wrap64 ((ps0 : Int) + 4 + pl) - ((ps0 : Int) + 4)).toNat)) := by
      rw [← hmsg]
    have hlenD : msg.Data.length =
        (wrap64 ((ps0 : Int) + 4 + pl) - ((ps0 : Int) + 4)).toNat := by
      rw [hData]
      simp only [unmaskBytes_length, List.length_take, List.length_drop]
      omega
    refine ⟨msg.Data.length, rfl, by omega, ?_, ?_⟩
    · rw [hlenD]
      exact hData
    · rw [hlenD, ← hbuf, hData]

theorem c9_aux (frame : List Nat) (msg : NmqMessage) (buf : List Nat)
    (pl : Int) (ps0 : Nat)
    (hok : parsePayload frame true pl ps0 = ⟨.ok msg, buf⟩) :
    ∃ ps, ps + msg.Data.length ≤ frame.length ∧
      buf = frame.take ps ++ msg.Data ++ frame.drop (ps + msg.Data.length) ∧
      msg.Data = unmaskBytes ((frame.drop (ps - 4)).take 4)
        ((frame.drop ps).take msg.Data.length) ∧
      (buf.drop ps).take msg.Data.length = msg.Data := by
  obtain ⟨plen, hplen, hle, hDataEq, hbufEq⟩ :=
    parsePayload_masked_ok frame pl ps0 msg buf hok
  subst hplen
  refine ⟨ps0 + 4, by omega, hbufEq, ?_, ?_⟩
  · simpa [Nat.add_sub_cancel] using hDataEq
  · rw [hbufEq, List.append_assoc,
      List.drop_left' (by simp only [List.length_take]; omega),
      List.take_left' rfl]

/-- C9: when a masked frame decodes successfully, the parser unmasks the
payload in place: the returned buffer is the input buffer with exactly the
payload region replaced by its unmasked bytes, the returned `Data` is that
unmasked region (the XOR of the original region with the repeating 4-byte
key that sits right before it), and `Data` coincides with the payload
region of the returned buffer — the model of a sub-slice aliasing the
caller's (mutated) buffer. -/
theorem c9_masked_decode_in_place (frame : List Nat) (msg : NmqMessage)
    (buf : List Nat) (hok : ParseWebSocketFrame frame = ⟨.ok msg, buf⟩)
    (hmask : frame.getD 1 0 &&& 0x80 ≠ 0) :
    ∃ ps, ps + msg.Data.length ≤ frame.length ∧
      buf = frame.take ps ++ msg.Data ++ frame.drop (ps + msg.Data.length) ∧
      msg.Data = unmaskBytes ((frame.drop (ps - 4)).take 4)
        ((frame.drop ps).take msg.Data.length) ∧
      (buf.drop ps).take msg.Data.length = msg.Data := by
  have hb : (frame.getD 1 0 &&& 0x80 != 0) = true := by
    simpa using hmask
  simp only [ParseWebSocketFrame, hb] at hok
  split_ifs at hok with h1 h2 h3 h4 h5 h6
  · simp at hok
  · simp at hok
  · simp at hok
  · exact c9_aux _ _ _ _ _ hok
  · simp at hok
  · exact c9_aux _ _ _ _ _ hok
  · exact c9_aux _ _ _ _ _ hok

/-- Witness for C9 on the concrete masked frame
`[0x82, 0x82, 1, 2, 3, 4, 0x10, 0x20]` (binary opcode, MASK=1, length 2,
key `1 2 3 4`, payload `0x10 0x20`), which decodes to `[0x11, 0x22]` and
rewrites the buffer tail in place. -/
theorem c9_masked_decode_in_place_witness :
    ∃ ps, ps + 2 ≤ 8 ∧
      [0x82, 0x82, 1, 2, 3, 4, 0x11, 0x22] =
        List.take ps [0x82, 0x82, 1, 2, 3, 4, 0x10, 0x20] ++ [0x11, 0x22] ++
          List.drop (ps + 2) [0x82, 0x82, 1, 2, 3, 4, 0x10, 0x20] ∧
      [0x11, 0x22] = unmaskBytes
        ((List.drop (ps - 4) [0x82, 0x82, 1, 2, 3, 4, 0x10, 0x20]).take 4)
        ((List.drop ps [0x82, 0x82, 1, 2, 3, 4, 0x10, 0x20]).take 2) ∧
      (List.drop ps [0x82, 0x82, 1, 2, 3, 4, 0x11, 0x22]).take 2 =
        [0x11, 0x22] :=
  c9_masked_decode_in_place [0x82, 0x82, 1, 2, 3, 4, 0x10, 0x20]
    ⟨"", [0x11, 0x22]⟩ [0x82, 0x82, 1, 2, 3, 4, 0x11, 0x22]
    (by decide) (by decide)

theorem parsePayload_res_cons (a b : Nat) (rest : List Nat) (m : Bool)
    (pl : Int) (k : Nat) :
    (parsePayload (a :: rest) m pl (k + 1)).res =
      (parsePayload (b :: rest) m pl (k + 1)).res := by
  have hd1 : ∀ (x : Nat), List.drop (k + 1) (x :: rest) = List.drop k rest :=
    fun _ => rfl
  have hd5 : ∀ (x : Nat), List.drop (k + 1 + 4) (x :: rest) =
      List.drop (k + 4) rest := fun _ => rfl
  cases m <;>
    simp only [parsePayload, List.length_cons, Bool.false_eq_true, false_and,
      eq_self_iff_true, true_and, if_false, if_true, apply_ite ParseOut.res,
      hd1, hd5]

set_option maxRecDepth 8192 in
/-- C10: frame decode ignores the FIN and RSV bits entirely — two frames
whose first bytes agree on the opcode nibble (bits 3-0) and differ only in
bits 7-4 produce the same decode result; in particular a non-final
fragment (FIN=0) with the Binary opcode is accepted and decoded exactly
like the corresponding complete message. -/
theorem c10_fin_rsv_ignored :
    (∀ (b1 b2 : Nat) (rest : List Nat), b1 < 256 → b2 < 256 →
      b1 &&& 0x0F = b2 &&& 0x0F →
      (ParseWebSocketFrame (b1 :: rest)).res =
        (ParseWebSocketFrame (b2 :: rest)).res) ∧
    (∀ (rest : List Nat) (m : NmqMessage),
      (ParseWebSocketFrame (0x82 :: rest)).res = .ok m →
      (ParseWebSocketFrame (0x02 :: rest)).res = .ok m) := by
  have main : ∀ (b1 b2 : Nat) (rest : List Nat), b1 &&& 0x0F = b2 &&& 0x0F →
      (ParseWebSocketFrame (b1 :: rest)).res =
        (ParseWebSocketFrame (b2 :: rest)).res := by
    intro b1 b2 rest hop
    simp only [ParseWebSocketFrame, List.length_cons, List.getD_cons_zero,
      List.getD_cons_succ, hop, apply_ite ParseOut.res]
    split_ifs <;>
      first
        | apply parsePayload_res_cons
        | rfl
  exact ⟨fun b1 b2 rest _ _ hop => main b1 b2 rest hop,
    fun rest m h => (main 0x02 0x82 rest (by decide)).trans h⟩

/-- Witness for C10: byte 0 `0x02` (FIN=0, Binary) and `0x82` (FIN=1,
Binary) decode identically on a concrete frame. -/
theorem c10_fin_rsv_ignored_witness :
    (0x02 : Nat) &&& 0x0F = (0x82 : Nat) &&& 0x0F ∧
      (ParseWebSocketFrame [0x02, 0x01, 0x77]).res =
        (ParseWebSocketFrame [0x82, 0x01, 0x77]).res :=
  ⟨by decide,
   c10_fin_rsv_ignored.1 0x02 0x82 [0x01, 0x77] (by decide) (by decide)
     (by decide)⟩

/-! ## Claim theorems: identifier monotonicity -/

theorem mkSnowId_eq (now node step : Nat) (hnode : node < 2 ^ 10)
    (hstep : step < 2 ^ 12) :
    mkSnowId now node step = now * 2 ^ 22 + node * 2 ^ 12 + step := by
  have e2 : node <<< snowNodeShift = node * 2 ^ 12 := by
    rw [Nat.shiftLeft_eq]
    norm_num [snowNodeShift, StepBits]
  have hb : node * 2 ^ 12 < 2 ^ 22 := by nlinarith
  have h1 : now <<< snowTimeShift ||| node * 2 ^ 12 = now * 2 ^ 22 + node * 2 ^ 12 := by
    have ht : snowTimeShift = 22 := by norm_num [snowTimeShift, NodeBits, StepBits]
    rw [ht, Nat.shiftLeft_eq, Nat.mul_comm, ← Nat.mul_add_lt_is_or hb now]
  have h2 : now * 2 ^ 22 + node * 2 ^ 12 = 2 ^ 12 * (now * 2 ^ 10 + node) := by
    ring
  unfold mkSnowId
  rw [e2, h1, h2, ← Nat.mul_add_lt_is_or hstep (now * 2 ^ 10 + node)]

theorem mkSnowId_lt (t1 s1 t2 s2 node : Nat) (hnode : node < 2 ^ 10)
    (hs1 : s1 < 2 ^ 12) (hs2 : s2 < 2 ^ 12)
    (h : t1 < t2 ∨ (t1 = t2 ∧ s1 < s2)) :
    mkSnowId t1 node s1 < mkSnowId t2 node s2 := by
  rw [mkSnowId_eq t1 node s1 hnode hs1, mkSnowId_eq t2 node s2 hnode hs2]
  rcases h with h | ⟨rfl, h⟩ <;> nlinarith

theorem snowGenerate_step (st : SnowNode) (now ex : Nat)
    (hval : snowValidState st = true) (hnow : st.time ≤ now) (hex : now < ex)
    (hex41 : ex < 2 ^ 41) :
    snowValidState (snowGenerate st now ex).1 = true ∧
    (snowGenerate st now ex).1.node = st.node ∧
    (snowGenerate st now ex).2 =
      mkSnowId (snowGenerate st now ex).1.time (snowGenerate st now ex).1.node
        (snowGenerate st now ex).1.step ∧
    (st.time < (snowGenerate st now ex).1.time ∨
      (st.time = (snowGenerate st now ex).1.time ∧
        st.step < (snowGenerate st now ex).1.step)) := by
  simp only [snowValidState, snowNodeMax, snowStepMask, NodeBits, StepBits,
    Bool.and_eq_true, decide_eq_true_eq] at hval
  obtain ⟨⟨hnode, hstep⟩, htime⟩ := hval
  have hmod : (st.step + 1) &&& 2 ^ 12 - 1 = (st.step + 1) % 2 ^ 12 :=
    Nat.and_pow_two_sub_one_eq_mod (st.step + 1) 12
  simp only [snowGenerate, snowStepMask, StepBits]
  split_ifs with h1 h2
  · refine ⟨?_, rfl, rfl, Or.inl (show st.time < ex by omega)⟩
    simp only [snowValidState, snowNodeMax, snowStepMask, NodeBits, StepBits,
      Bool.and_eq_true, decide_eq_true_eq]
    exact ⟨⟨hnode, Nat.and_le_right⟩, hex41⟩
  · refine ⟨?_, rfl, rfl,
      Or.inr ⟨h1.symm, show st.step < (st.step + 1) &&& 2 ^ 12 - 1 from ?_⟩⟩
    · simp only [snowValidState, snowNodeMax, snowStepMask, NodeBits, StepBits,
        Bool.and_eq_true, decide_eq_true_eq]
      exact ⟨⟨hnode, Nat.and_le_right⟩, by omega⟩
    · rw [hmod] at h2 ⊢
      omega
  · refine ⟨?_, rfl, rfl, Or.inl (show st.time < now by omega)⟩
    simp only [snowValidState, snowNodeMax, snowStepMask, NodeBits, StepBits,
      Bool.and_eq_true, decide_eq_true_eq]
    exact ⟨⟨hnode, by omega⟩, by omega⟩

theorem snowValid_fields {st : SnowNode} (h : snowValidState st = true) :
    st.node < 2 ^ 10 ∧ st.step < 2 ^ 12 ∧ st.time < 2 ^ 41 := by
  simp only [snowValidState, snowNodeMax, snowStepMask, NodeBits, StepBits,
    Bool.and_eq_true, decide_eq_true_eq] at h
  omega

theorem snowRun_chain_aux (tr : List (Nat × Nat)) (st : SnowNode)
    (hst : snowValidState st = true) (hck : snowValidClock st tr = true) :
    List.Chain' (· < ·) (mkSnowId st.time st.node st.step :: snowRun st tr) := by
  induction tr generalizing st with
  | nil => simp [snowRun]
  | cons p rest ih =>
    obtain ⟨now, ex⟩ := p
    simp only [snowValidClock, Bool.and_eq_true, decide_eq_true_eq] at hck
    obtain ⟨⟨⟨hnow, hex⟩, hex41⟩, hck'⟩ := hck
    obtain ⟨hval', hnode', hid', hlex⟩ := snowGenerate_step st now ex hst hnow hex hex41
    obtain ⟨hn0, hs0, _⟩ := snowValid_fields hst
    obtain ⟨_, hs1, _⟩ := snowValid_fields hval'
    simp only [snowRun]
    rw [List.chain'_cons]
    constructor
    · rw [hid', hnode']
      exact mkSnowId_lt st.time st.step _ _ st.node hn0 hs0 hs1 hlex
    · rw [hid']
      exact ih _ hval' hck'

/-- C3: for a fixed generator with a well-behaved clock (non-decreasing
readings below the 41-bit horizon), every run of successive `Generate()`
calls yields strictly increasing identifiers; the sequence field resets to
0 whenever the reading differs from the stored millisecond; and when the
sequence wraps to 0 within the same millisecond, the busy-wait loop's exit
reading (strictly past the stored millisecond) becomes the identifier's
timestamp. -/
theorem c3_generate_strictly_increasing :
    (∀ (st : SnowNode) (tr : List (Nat × Nat)), snowValidState st = true →
      snowValidClock st tr = true → List.Chain' (· < ·) (snowRun st tr)) ∧
    (∀ (st : SnowNode) (now ex : Nat), now ≠ st.time →
      (snowGenerate st now ex).1.step = 0 ∧
      (snowGenerate st now ex).2 = mkSnowId now st.node 0) ∧
    (∀ (st : SnowNode) (now ex : Nat), now = st.time →
      (st.step + 1) &&& snowStepMask = 0 →
      (snowGenerate st now ex).1.time = ex ∧
      (snowGenerate st now ex).2 = mkSnowId ex st.node 0) := by
  refine ⟨fun st tr hst hck => (snowRun_chain_aux tr st hst hck).tail, ?_, ?_⟩
  · intro st now ex h
    simp [snowGenerate, h]
  · intro st now ex h1 h2
    simp [snowGenerate, h1, h2]

/-- Witness for C3: three `Generate()` calls on a fresh node-1 generator,
two of them in the same millisecond. -/
theorem c3_generate_strictly_increasing_witness :
    snowValidState ⟨0, 1, 0⟩ = true ∧
    snowValidClock ⟨0, 1, 0⟩ [(5, 6), (5, 6), (6, 7)] = true ∧
    List.Chain' (· < ·) (snowRun ⟨0, 1, 0⟩ [(5, 6), (5, 6), (6, 7)]) :=
  ⟨by decide, by decide,
   c3_generate_strictly_increasing.1 ⟨0, 1, 0⟩ [(5, 6), (5, 6), (6, 7)]
     (by decide) (by decide)⟩

/-! ## Claim theorems: SnowID encoding round-trips -/

theorem digitsGo_ne_nil (base fuel n : Nat) : digitsGo base fuel n ≠ [] := by
  cases fuel with
  | zero => simp [digitsGo]
  | succ f =>
    simp only [digitsGo]
    split_ifs <;> simp

theorem digitsGo_lt (base : Nat) (hb : 2 ≤ base) :
    ∀ fuel n, n ≤ fuel → ∀ d ∈ digitsGo base fuel n, d < base := by
  intro fuel
  induction fuel with
  | zero =>
    intro n hn d hd
    simp only [digitsGo, List.mem_singleton] at hd
    omega
  | succ f ih =>
    intro n hn d hd
    simp only [digitsGo] at hd
    split_ifs at hd with h
    · simp only [List.mem_singleton] at hd
      omega
    · simp only [List.mem_cons] at hd
      rcases hd with rfl | hd
      · exact Nat.mod_lt _ (by omega)
      · have hdiv : n / base < n := Nat.div_lt_self (by omega) (by omega)
        exact ih (n / base) (by omega) d hd

theorem natOfDigits_append (base : Nat) (xs : List Nat) (d : Nat) :
    natOfDigits base (xs ++ [d]) = natOfDigits base xs * base + d := by
  induction xs with
  | nil => simp [natOfDigits]
  | cons x xs ih =>
    simp only [List.cons_append, natOfDigits, List.append_eq, List.length_append,
      List.length_cons, List.length_nil, ih]
    ring

theorem natOfDigits_digitsGo (base : Nat) (hb : 2 ≤ base) :
    ∀ fuel n, n ≤ fuel → natOfDigits base ((digitsGo base fuel n).reverse) = n := by
  intro fuel
  induction fuel with
  | zero =>
    intro n hn
    simp [digitsGo, natOfDigits]
  | succ f ih =>
    intro n hn
    simp only [digitsGo]
    split_ifs with h
    · simp [natOfDigits]
    · have hdiv : n / base < n := Nat.div_lt_self (by omega) (by omega)
      simp only [List.reverse_cons]
      rw [natOfDigits_append, ih (n / base) (by omega),
        Nat.mul_comm (n / base) base]
      exact Nat.div_add_mod n base

theorem goDigitVal_enc (d : Nat) (hd : d < 36) :
    goDigitVal (goDigitChars.getD d 0) = some d := by
  have h : ∀ d : Fin 36, goDigitVal (goDigitChars.getD d.val 0) = some d.val := by
    decide
  exact h ⟨d, hd⟩

theorem goDigitChars_byte (d : Nat) (hd : d < 36) :
    goDigitChars.getD d 0 ≠ 43 ∧ goDigitChars.getD d 0 ≠ 45 ∧
      goDigitChars.getD d 0 < 256 := by
  have h : ∀ d : Fin 36, goDigitChars.getD d.val 0 ≠ 43 ∧
      goDigitChars.getD d.val 0 ≠ 45 ∧ goDigitChars.getD d.val 0 < 256 := by
    decide
  exact h ⟨d, hd⟩

theorem parseUintLoop_digits (base : Nat) (hb : 2 ≤ base) (hb36 : base ≤ 36) :
    ∀ (ds : List Nat) (un : Nat), (∀ d ∈ ds, d < base) →
      un * base ^ ds.length + natOfDigits base ds < 2 ^ 63 →
      parseUintLoop base un (ds.map (fun d => goDigitChars.getD d 0)) =
        some (un * base ^ ds.length + natOfDigits base ds) := by
  intro ds
  induction ds with
  | nil =>
    intro un _ _
    simp [parseUintLoop, natOfDigits]
  | cons d ds ih =>
    intro un hds hbound
    have hd : d < base := hds d (List.mem_cons_self _ _)
    have hdall : ∀ x ∈ ds, x < base := fun x hx => hds x (List.mem_cons_of_mem _ hx)
    have hpow : 0 < base ^ ds.length := Nat.pow_pos (by omega)
    have hbound2 : un * base ^ (ds.length + 1) + natOfDigits base (d :: ds) < 2 ^ 63 := by
      simpa using hbound
    have hunb : un * base ≤ un * base ^ (ds.length + 1) := by
      calc un * base = un * base * 1 := by ring
        _ ≤ un * base * base ^ ds.length := Nat.mul_le_mul_left _ hpow
        _ = un * base ^ (ds.length + 1) := by ring
    have hunb2 : un * base < 2 ^ 63 := by omega
    have hdivb : un ≤ (2 ^ 64 - 1) / base :=
      (Nat.le_div_iff_mul_le (by omega : 0 < base)).mpr (by omega)
    have hcut : ¬ un ≥ (2 ^ 64 - 1) / base + 1 := by
      intro hcon
      exact Nat.not_succ_le_self _ (le_trans hcon hdivb)
    have hov : ¬ un * base + d > 2 ^ 64 - 1 := by omega
    have heq : (un * base + d) * base ^ ds.length + natOfDigits base ds =
        un * base ^ (ds.length + 1) + natOfDigits base (d :: ds) := by
      simp only [natOfDigits]
      ring
    simp only [List.map_cons, parseUintLoop, goDigitVal_enc d (by omega),
      List.length_cons]
    rw [if_neg (by omega), if_neg hcut, if_neg hov]
    rw [ih (un * base + d) hdall (by rw [heq]; exact hbound2), heq]

theorem goParseInt_formatNat (base : Nat) (hb : 2 ≤ base) (hb36 : base ≤ 36)
    (n : Nat) (hn : n < 2 ^ 63) :
    goParseInt base (formatNat base n) = some (n : Int) := by
  have hne : digitsLSB base n ≠ [] := digitsGo_ne_nil base n n
  have hrevne : (digitsLSB base n).reverse ≠ [] := by
    simpa using hne
  obtain ⟨d0, rest, hcons⟩ := List.exists_cons_of_ne_nil hrevne
  have hds : ∀ d ∈ (digitsLSB base n).reverse, d < base := fun d hd =>
    digitsGo_lt base hb n n (le_refl n) d (List.mem_reverse.mp hd)
  have hval : natOfDigits base ((digitsLSB base n).reverse) = n :=
    natOfDigits_digitsGo base hb n n (le_refl n)
  rw [hcons] at hds hval
  have hform : formatNat base n =
      (d0 :: rest).map (fun d => goDigitChars.getD d 0) := by
    rw [formatNat, ← hcons]
    simp [List.map_reverse]
  have hd0 : d0 < base := hds d0 (List.mem_cons_self _ _)
  obtain ⟨hne43, hne45, _⟩ := goDigitChars_byte d0 (by omega)
  have hloop : parseUintLoop base 0
      ((d0 :: rest).map (fun d => goDigitChars.getD d 0)) = some n := by
    rw [parseUintLoop_digits base hb hb36 (d0 :: rest) 0 hds (by simpa [hval])]
    simp [hval]
  have hloop2 : parseUintLoop base 0
      (goDigitChars.getD d0 0 ::
        List.map (fun d => goDigitChars.getD d 0) rest) = some n := hloop
  rw [hform, List.map_cons]
  simp only [goParseInt]
  rw [if_neg (not_or.mpr ⟨hne43, hne45⟩)]
  simp only [goParseUint, if_neg (List.cons_ne_nil _ _), hloop2]
  rw [if_neg (fun hcon => absurd hcon.2 (by omega : ¬ n ≥ 2 ^ 63)),
    if_neg (fun hcon => hne45 hcon.1), if_neg hne45]

theorem decodeBase32Map_enc (d : Nat) (hd : d < 32) :
    decodeBase32Map (encodeBase32Map.getD d 0) = d := by
  have h : ∀ d : Fin 32, decodeBase32Map (encodeBase32Map.getD d.val 0) = d.val := by
    decide
  exact h ⟨d, hd⟩

theorem decodeBase58Map_enc (d : Nat) (hd : d < 58) :
    decodeBase58Map (encodeBase58Map.getD d 0) = d := by
  have h : ∀ d : Fin 58, decodeBase58Map (encodeBase58Map.getD d.val 0) = d.val := by
    decide
  exact h ⟨d, hd⟩

theorem parseBase32Loop_digits :
    ∀ (ds : List Nat) (id : Nat), (∀ d ∈ ds, d < 32) →
      id * 32 ^ ds.length + natOfDigits 32 ds < 2 ^ 63 →
      parseBase32Loop (id : Int) (ds.map (fun d => encodeBase32Map.getD d 0)) =
        some ((id * 32 ^ ds.length + natOfDigits 32 ds : Nat) : Int) := by
  intro ds
  induction ds with
  | nil =>
    intro id _ _
    simp [parseBase32Loop, natOfDigits]
  | cons d ds ih =>
    intro id hds hbound
    have hd : d < 32 := hds d (List.mem_cons_self _ _)
    have hdall : ∀ x ∈ ds, x < 32 := fun x hx => hds x (List.mem_cons_of_mem _ hx)
    have hbound2 : id * 32 ^ (ds.length + 1) + natOfDigits 32 (d :: ds) < 2 ^ 63 := by
      simpa using hbound
    have hpow : 0 < (32 : Nat) ^ ds.length := Nat.pow_pos (by omega)
    have heq : (id * 32 + d) * 32 ^ ds.length + natOfDigits 32 ds =
        id * 32 ^ (ds.length + 1) + natOfDigits 32 (d :: ds) := by
      simp only [natOfDigits]
      ring
    have hlt : id * 32 + d < 2 ^ 63 := by
      have h1 : (id * 32 + d) * 1 ≤ (id * 32 + d) * 32 ^ ds.length :=
        Nat.mul_le_mul_left _ hpow
      omega
    have hwrap : wrap64 ((id : Int) * 32 + (d : Int)) = ((id * 32 + d : Nat) : Int) := by
      have hcast : (id : Int) * 32 + (d : Int) = ((id * 32 + d : Nat) : Int) := by
        push_cast
        ring
      rw [hcast]
      exact wrap64_eq_self (by omega) (by exact_mod_cast hlt)
    simp only [List.map_cons, parseBase32Loop, decodeBase32Map_enc d hd,
      List.length_cons]
    rw [if_neg (by omega), hwrap, ih (id * 32 + d) hdall (by rw [heq]; exact hbound2),
      heq]

theorem parseBase58Loop_digits :
    ∀ (ds : List Nat) (id : Nat), (∀ d ∈ ds, d < 58) →
      id * 58 ^ ds.length + natOfDigits 58 ds < 2 ^ 63 →
      parseBase58Loop (id : Int) (ds.map (fun d => encodeBase58Map.getD d 0)) =
        some ((id * 58 ^ ds.length + natOfDigits 58 ds : Nat) : Int) := by
  intro ds
  induction ds with
  | nil =>
    intro id _ _
    simp [parseBase58Loop, natOfDigits]
  | cons d ds ih =>
    intro id hds hbound
    have hd : d < 58 := hds d (List.mem_cons_self _ _)
    have hdall : ∀ x ∈ ds, x < 58 := fun x hx => hds x (List.mem_cons_of_mem _ hx)
    have hbound2 : id * 58 ^ (ds.length + 1) + natOfDigits 58 (d :: ds) < 2 ^ 63 := by
      simpa using hbound
    have hpow : 0 < (58 : Nat) ^ ds.length := Nat.pow_pos (by omega)
    have heq : (id * 58 + d) * 58 ^ ds.length + natOfDigits 58 ds =
        id * 58 ^ (ds.length + 1) + natOfDigits 58 (d :: ds) := by
      simp only [natOfDigits]
      ring
    have hlt : id * 58 + d < 2 ^ 63 := by
      have h1 : (id * 58 + d) * 1 ≤ (id * 58 + d) * 58 ^ ds.length :=
        Nat.mul_le_mul_left _ hpow
      omega
    have hwrap : wrap64 ((id : Int) * 58 + (d : Int)) = ((id * 58 + d : Nat) : Int) := by
      have hcast : (id : Int) * 58 + (d : Int) = ((id * 58 + d : Nat) : Int) := by
        push_cast
        ring
      rw [hcast]
      exact wrap64_eq_self (by omega) (by exact_mod_cast hlt)
    simp only [List.map_cons, parseBase58Loop, decodeBase58Map_enc d hd,
      List.length_cons]
    rw [if_neg (by omega), hwrap, ih (id * 58 + d) hdall (by rw [heq]; exact hbound2),
      heq]

theorem ParseBase32_SnowBase32 (n : Nat) (hn : n < 2 ^ 63) :
    ParseBase32 (SnowBase32 n) = some (n : Int) := by
  have hds : ∀ d ∈ (digitsLSB 32 n).reverse, d < 32 := fun d hd =>
    digitsGo_lt 32 (by omega) n n (le_refl n) d (List.mem_reverse.mp hd)
  have hval : natOfDigits 32 ((digitsLSB 32 n).reverse) = n :=
    natOfDigits_digitsGo 32 (by omega) n n (le_refl n)
  have hform : SnowBase32 n =
      ((digitsLSB 32 n).reverse).map (fun d => encodeBase32Map.getD d 0) := by
    rw [SnowBase32]
    simp [List.map_reverse]
  have h := parseBase32Loop_digits ((digitsLSB 32 n).reverse) 0 hds
    (by simpa [hval])
  rw [ParseBase32, hform]
  simpa [hval] using h

theorem ParseBase58_SnowBase58 (n : Nat) (hn : n < 2 ^ 63) :
    ParseBase58 (SnowBase58 n) = some (n : Int) := by
  have hds : ∀ d ∈ (digitsLSB 58 n).reverse, d < 58 := fun d hd =>
    digitsGo_lt 58 (by omega) n n (le_refl n) d (List.mem_reverse.mp hd)
  have hval : natOfDigits 58 ((digitsLSB 58 n).reverse) = n :=
    natOfDigits_digitsGo 58 (by omega) n n (le_refl n)
  have hform : SnowBase58 n =
      ((digitsLSB 58 n).reverse).map (fun d => encodeBase58Map.getD d 0) := by
    rw [SnowBase58]
    simp [List.map_reverse]
  have h := parseBase58Loop_digits ((digitsLSB 58 n).reverse) 0 hds
    (by simpa [hval])
  rw [ParseBase58, hform]
  simpa [hval] using h

theorem b64DigitVal_enc (v : Nat) (hv : v < 64) :
    b64DigitVal (b64EncodeMap.getD v 0) = some v := by
  have h : ∀ v : Fin 64, b64DigitVal (b64EncodeMap.getD v.val 0) = some v.val := by
    decide
  exact h ⟨v, hv⟩

theorem b64EncodeMap_ne_pad (v : Nat) (hv : v < 64) :
    b64EncodeMap.getD v 0 ≠ b64Pad := by
  have h : ∀ v : Fin 64, b64EncodeMap.getD v.val 0 ≠ b64Pad := by decide
  exact h ⟨v, hv⟩

theorem b64_roundtrip :
    ∀ (fuel : Nat) (bs : List Nat), bs.length ≤ fuel → (∀ b ∈ bs, b < 256) →
      b64Decode (b64Encode bs) = some bs := by
  intro fuel
  induction fuel with
  | zero =>
    intro bs hlen _
    have hnil : bs = [] := List.eq_nil_of_length_eq_zero (by omega)
    subst hnil
    rfl
  | succ f ih =>
    intro bs hlen hbytes
    cases bs with
    | nil => rfl
    | cons b0 t0 =>
      have hb0 : b0 < 256 := hbytes b0 (List.mem_cons_self _ _)
      cases t0 with
      | nil =>
        simp only [b64Encode, b64Decode, b64DigitVal_enc (b0 / 4) (by omega),
          b64DigitVal_enc (b0 % 4 * 16) (by omega)]
        simp only [if_true, and_self, Option.some.injEq, List.cons.injEq,
          and_true]
        omega
      | cons b1 t1 =>
        have hb1 : b1 < 256 := hbytes b1 (by simp)
        cases t1 with
        | nil =>
          simp only [b64Encode, b64Decode, b64DigitVal_enc (b0 / 4) (by omega),
            b64DigitVal_enc (b0 % 4 * 16 + b1 / 16) (by omega),
            b64DigitVal_enc (b1 % 16 * 4) (by omega)]
          rw [if_neg (b64EncodeMap_ne_pad (b1 % 16 * 4) (by omega))]
          simp only [if_true, Option.some.injEq, List.cons.injEq, and_true]
          constructor
          · omega
          · omega
        | cons b2 rest =>
          have hb2 : b2 < 256 := hbytes b2 (by simp)
          have hrest : ∀ b ∈ rest, b < 256 := fun b hb =>
            hbytes b (by simp [hb])
          have hrlen : rest.length ≤ f := by
            simp only [List.length_cons] at hlen
            omega
          simp only [b64Encode, b64Decode, b64DigitVal_enc (b0 / 4) (by omega),
            b64DigitVal_enc (b0 % 4 * 16 + b1 / 16) (by omega),
            b64DigitVal_enc (b1 % 16 * 4 + b2 / 64) (by omega),
            b64DigitVal_enc (b2 % 64) (by omega)]
          rw [if_neg (b64EncodeMap_ne_pad (b1 % 16 * 4 + b2 / 64) (by omega)),
            if_neg (b64EncodeMap_ne_pad (b2 % 64) (by omega))]
          rw [ih rest hrlen hrest]
          simp only [Option.some.injEq, List.cons.injEq]
          refine ⟨by omega, by omega, by omega, trivial⟩

theorem formatNat_bytes (base : Nat) (hb : 2 ≤ base) (hb36 : base ≤ 36) (n : Nat) :
    ∀ c ∈ formatNat base n, c < 256 := by
  intro c hc
  simp only [formatNat, List.mem_reverse, List.mem_map] at hc
  obtain ⟨d, hd, rfl⟩ := hc
  have hdb : d < base := digitsGo_lt base hb n n (le_refl n) d hd
  exact (goDigitChars_byte d (by omega)).2.2

theorem ParseBase64_SnowBase64 (n : Nat) (hn : n < 2 ^ 63) :
    ParseBase64 (SnowBase64 n) = some (n : Int) := by
  unfold ParseBase64 SnowBase64 SnowBytes
  rw [b64_roundtrip (SnowString n).length (SnowString n) (le_refl _)
    (formatNat_bytes 10 (by omega) (by omega) n)]
  exact goParseInt_formatNat 10 (by omega) (by omega) n hn

theorem ParseIntBytes_SnowIntBytes (n : Nat) (hn : n < 2 ^ 63) :
    ParseIntBytes (SnowIntBytes n) = (n : Int) := by
  unfold ParseIntBytes SnowIntBytes putUint64BE
  simp only [List.getD_cons_zero, List.getD_cons_succ]
  unfold beUint64 toInt64
  have hbe : n / 2 ^ 56 % 256 * 2 ^ 56 + n / 2 ^ 48 % 256 * 2 ^ 48 +
      n / 2 ^ 40 % 256 * 2 ^ 40 + n / 2 ^ 32 % 256 * 2 ^ 32 +
      n / 2 ^ 24 % 256 * 2 ^ 24 + n / 2 ^ 16 % 256 * 2 ^ 16 +
      n / 2 ^ 8 % 256 * 2 ^ 8 + n % 256 = n := by
    omega
  rw [hbe]
  exact wrap64_eq_self (by omega) (by exact_mod_cast hn)

/-- C6: for every non-negative 63-bit identifier, each text/binary
encoding round-trips with its parser: decimal `String`/`ParseString`,
`Base32`/`ParseBase32`, `Base36`/`ParseBase36`, `Base58`/`ParseBase58`,
`Base64`/`ParseBase64` (base64 of the decimal string), and the 8-byte
big-endian `IntBytes`/`ParseIntBytes`. -/
theorem c6_snowid_roundtrips (id : Nat) (hid : id < 2 ^ 63) :
    ParseString (SnowString id) = some (id : Int) ∧
    ParseBase32 (SnowBase32 id) = some (id : Int) ∧
    ParseBase36 (SnowBase36 id) = some (id : Int) ∧
    ParseBase58 (SnowBase58 id) = some (id : Int) ∧
    ParseBase64 (SnowBase64 id) = some (id : Int) ∧
    ParseIntBytes (SnowIntBytes id) = (id : Int) :=
  ⟨goParseInt_formatNat 10 (by omega) (by omega) id hid,
   ParseBase32_SnowBase32 id hid,
   goParseInt_formatNat 36 (by omega) (by omega) id hid,
   ParseBase58_SnowBase58 id hid,
   ParseBase64_SnowBase64 id hid,
   ParseIntBytes_SnowIntBytes id hid⟩

/-- Witness for C6 at a large concrete identifier. -/
theorem c6_snowid_roundtrips_witness :
    (1234567890123456789 : Nat) < 2 ^ 63 ∧
      (ParseString (SnowString 1234567890123456789) =
          some (1234567890123456789 : Int) ∧
        ParseBase32 (SnowBase32 1234567890123456789) =
          some (1234567890123456789 : Int) ∧
        ParseBase36 (SnowBase36 1234567890123456789) =
          some (1234567890123456789 : Int) ∧
        ParseBase58 (SnowBase58 1234567890123456789) =
          some (1234567890123456789 : Int) ∧
        ParseBase64 (SnowBase64 1234567890123456789) =
          some (1234567890123456789 : Int) ∧
        ParseIntBytes (SnowIntBytes 1234567890123456789) =
          (1234567890123456789 : Int)) :=
  ⟨by decide, c6_snowid_roundtrips 1234567890123456789 (by decide)⟩
